import Mathlib

/-!
Shallow embedding of the dashboard application (`src/app.py`).

The app loads a CSV into a dataframe `df`, preprocesses the
`Asset_Class_Distribution` column with
`fillna('').apply(lambda x: str(x).split(','))`, explodes that column into
`df_exploded`, builds four figures (pie, two line charts, one bar chart),
exposes a dropdown callback `update_bar_chart` recomputing the bar chart
from `df_exploded`, and a button callback `generate_pdf` that rasterizes
the four module-level figures into a PDF report.

Numeric CSV columns are modelled with `ℚ` (the claims under study are not
about float rounding); rasterization is modelled as the chart
specification itself, following the spec's injected-renderer design note.
-/

namespace Dashboard

/-- Model of Python's `s.split(sep)` for a one-character separator, on the
character list of the string: splitting the empty list yields `[[]]`
(Python: `''.split(',') == ['']`), and every separator occurrence starts a
new chunk. -/
def pySplit (sep : Char) : List Char → List (List Char)
  | [] => [[]]
  | c :: cs =>
    match pySplit sep cs with
    | [] => [[]]
    | t :: ts => if c = sep then [] :: t :: ts else (c :: t) :: ts

/-- Inverse of `pySplit`: concatenate chunks with the separator between
consecutive chunks. -/
def joinChar (sep : Char) : List (List Char) → List Char
  | [] => []
  | [t] => t
  | t :: ts => t ++ sep :: joinChar sep ts

/-- `str(x).split(',')` from line 21 of `app.py`, lifted to `String`. -/
def splitComma (s : String) : List String :=
  (pySplit ',' s.data).map List.asString

/-- Join a token list back with commas (used to state that splitting
loses no characters, i.e. preserves all whitespace inside tokens). -/
def joinComma (l : List String) : String :=
  List.asString (joinChar ',' (l.map String.data))

theorem pySplit_ne_nil (sep : Char) (cs : List Char) : pySplit sep cs ≠ [] := by
  cases cs with
  | nil => simp [pySplit]
  | cons c cs =>
    simp only [pySplit]
    cases pySplit sep cs with
    | nil => simp
    | cons t ts =>
      dsimp only
      split <;> simp

theorem joinChar_pySplit (sep : Char) (cs : List Char) :
    joinChar sep (pySplit sep cs) = cs := by
  induction cs with
  | nil => rfl
  | cons c cs ih =>
    simp only [pySplit]
    cases h : pySplit sep cs with
    | nil => exact absurd h (pySplit_ne_nil sep cs)
    | cons t ts =>
      rw [h] at ih
      dsimp only
      by_cases hc : c = sep
      · subst hc
        simp only [if_pos rfl, joinChar]
        cases ts with
        | nil => simpa [joinChar] using ih
        | cons u ts => simpa [joinChar] using ih
      · rw [if_neg hc]
        cases ts with
        | nil => simpa [joinChar] using ih
        | cons u ts =>
          simp only [joinChar, List.cons_append] at ih ⊢
          rw [← ih]

theorem sep_not_mem_pySplit (sep : Char) (cs : List Char) :
    ∀ t ∈ pySplit sep cs, sep ∉ t := by
  induction cs with
  | nil => simp [pySplit]
  | cons c cs ih =>
    simp only [pySplit]
    cases h : pySplit sep cs with
    | nil => exact absurd h (pySplit_ne_nil sep cs)
    | cons t ts =>
      rw [h] at ih
      dsimp only
      by_cases hc : c = sep
      · subst hc
        rw [if_pos rfl]
        intro u hu
        simp only [List.mem_cons] at hu
        rcases hu with rfl | hu
        · simp
        · rcases hu with rfl | hu
          · exact ih u (List.mem_cons_self u ts)
          · exact ih u (List.mem_cons_of_mem t hu)
      · rw [if_neg hc]
        intro u hu
        simp only [List.mem_cons] at hu
        rcases hu with rfl | hu
        · intro hmem
          simp only [List.mem_cons] at hmem
          rcases hmem with rfl | hmem
          · exact hc rfl
          · exact ih t (List.mem_cons_self t ts) hmem
        · exact ih u (List.mem_cons_of_mem t hu)

theorem splitComma_ne_nil (s : String) : splitComma s ≠ [] := by
  simp only [splitComma, ne_eq, List.map_eq_nil_iff]
  exact pySplit_ne_nil ',' s.data

theorem splitComma_length_pos (s : String) : 0 < (splitComma s).length := by
  cases h : splitComma s with
  | nil => exact absurd h (splitComma_ne_nil s)
  | cons t ts => simp

theorem splitComma_empty : splitComma "" = [""] := rfl

theorem joinComma_splitComma (s : String) : joinComma (splitComma s) = s := by
  simp only [joinComma, splitComma, List.map_map]
  have hdata : (List.asString · |>.data) = (id : List Char → List Char) := by
    funext l
    rfl
  rw [Function.comp_def]
  simp only [hdata, List.map_id]
  rw [joinChar_pySplit]
  cases s
  rfl

theorem comma_not_mem_splitComma (s : String) :
    ∀ t ∈ splitComma s, ',' ∉ t.data := by
  intro t ht
  simp only [splitComma, List.mem_map] at ht
  obtain ⟨l, hl, rfl⟩ := ht
  exact sep_not_mem_pySplit ',' s.data l hl

/-- One raw CSV row of `data.csv`: `Cluster_Label`, `Sector_Balance`,
`Regional_Exposure`, and `Asset_Class_Distribution` (whose cell may be
missing, modelled by `none`, which pandas reads as NaN). -/
structure RawRow where
  cluster : String
  sectorBalance : ℚ
  regionalExposure : ℚ
  assetClassField : Option String
deriving DecidableEq

/-- One row of `df` after the line-21 preprocessing: the
`Asset_Class_Distribution` cell has been replaced by a list of tokens. -/
structure Record where
  cluster : String
  sectorBalance : ℚ
  regionalExposure : ℚ
  assetClasses : List String
deriving DecidableEq

/-- Line 21 of `app.py`, applied to one cell:
`fillna('')` maps a missing value to `''`, then `str(x).split(',')`. -/
def fillnaSplit (v : Option String) : List String :=
  splitComma (v.getD "")

/-- Apply the line-21 preprocessing to one raw row. Total: no input cell
value makes it fail. -/
def loadRecord (r : RawRow) : Record :=
  { cluster := r.cluster
    sectorBalance := r.sectorBalance
    regionalExposure := r.regionalExposure
    assetClasses := fillnaSplit r.assetClassField }

/-- The loaded dataframe `df` (after line 21), as a list of records in CSV
row order. -/
def loadRecords (rows : List RawRow) : List Record :=
  rows.map loadRecord

theorem fillnaSplit_of_empty (v : Option String)
    (h : v = none ∨ v = some "") : fillnaSplit v = [""] := by
  rcases h with h | h <;> simp [fillnaSplit, h, splitComma_empty]

theorem fillnaSplit_ne_nil (v : Option String) : fillnaSplit v ≠ [] :=
  splitComma_ne_nil _

/-- One row of `df_exploded` (line 22 of `app.py`): the token list has
been replaced by a single token. `none` models the NaN token that
`pandas.DataFrame.explode` produces for an empty list. -/
structure ExpandedRecord where
  cluster : String
  sectorBalance : ℚ
  regionalExposure : ℚ
  token : Option String
deriving DecidableEq

/-- `pandas.DataFrame.explode` on one row: a row whose list has N ≥ 1
elements becomes N rows, one per element; a row with an empty list
becomes one row with a NaN (`none`) token. All other fields are copied. -/
def explodeRecord (r : Record) : List ExpandedRecord :=
  match r.assetClasses with
  | [] => [{ cluster := r.cluster
             sectorBalance := r.sectorBalance
             regionalExposure := r.regionalExposure
             token := none }]
  | ts => ts.map (fun t =>
      { cluster := r.cluster
        sectorBalance := r.sectorBalance
        regionalExposure := r.regionalExposure
        token := some t })

/-- `df_exploded = df.explode('Asset_Class_Distribution')` (line 22). -/
def df_exploded (rs : List Record) : List ExpandedRecord :=
  rs.flatMap explodeRecord

/-- The string value carried by one `df_exploded` row in the
`Asset_Class_Distribution` column. In every view reachable from the
loader the token is present (`some`), since line 21 never produces an
empty list; the `""` default is only a total-function fallback for the
unreachable NaN case. -/
def tokenStr (e : ExpandedRecord) : String :=
  e.token.getD ""

/-- `pandas.Series.unique`: distinct values in order of first
appearance. Implemented with an accumulator of already-seen values so
that it is structurally recursive. -/
def pdUniqueAux : List String → List String → List String
  | _, [] => []
  | seen, x :: xs =>
    if x ∈ seen then pdUniqueAux seen xs else x :: pdUniqueAux (x :: seen) xs

def pdUnique (l : List String) : List String :=
  pdUniqueAux [] l

/-- Lexicographic strict comparison of character lists, as a structurally
recursive boolean function (Python string comparison is lexicographic on
code points). -/
def charLtb : List Char → List Char → Bool
  | [], [] => false
  | [], _ :: _ => true
  | _ :: _, [] => false
  | a :: as, b :: bs => if a < b then true else if b < a then false else charLtb as bs

/-- Boolean `a ≤ b` on strings, via `charLtb`. -/
def strLeb (a b : String) : Bool :=
  !(charLtb b.data a.data)

/-- Insert a string in front of the first element not below it. -/
def orderedInsertStr (x : String) : List String → List String
  | [] => [x]
  | y :: ys => if strLeb x y then x :: y :: ys else y :: orderedInsertStr x ys

/-- Insertion sort of strings in ascending lexicographic order, modelling
Python's `sorted` on strings. -/
def sortStrings : List String → List String
  | [] => []
  | x :: xs => orderedInsertStr x (sortStrings xs)

/-- `sorted(... .unique())` as used for `category_orders` in `app.py`:
the distinct values, sorted lexicographically. -/
def sortedCats (tokens : List String) : List String :=
  sortStrings (pdUnique tokens)

theorem charLtb_iff : ∀ x y : List Char, charLtb x y = true ↔ List.Lex (· < ·) x y
  | [], [] => by
    simp only [charLtb, Bool.false_eq_true, false_iff]
    intro h
    cases h
  | [], b :: bs => by
    simp only [charLtb, true_iff]
    exact List.Lex.nil
  | a :: as, [] => by
    simp only [charLtb, Bool.false_eq_true, false_iff]
    intro h
    cases h
  | a :: as, b :: bs => by
    simp only [charLtb]
    by_cases hab : a < b
    · simp only [if_pos hab, true_iff]
      exact List.Lex.rel hab
    · rw [if_neg hab]
      by_cases hba : b < a
      · simp only [if_pos hba, Bool.false_eq_true, false_iff]
        intro h
        cases h with
        | cons h => exact absurd hba (lt_irrefl _)
        | rel h => exact hab h
      · rw [if_neg hba]
        have hEq : a = b := le_antisymm (not_lt.mp hba) (not_lt.mp hab)
        subst hEq
        rw [charLtb_iff as bs]
        constructor
        · exact List.Lex.cons
        · intro h
          cases h with
          | cons h => exact h
          | rel h => exact absurd h hab

theorem strLeb_iff (a b : String) : strLeb a b = true ↔ a ≤ b := by
  have h1 : b < a ↔ List.Lex (· < ·) b.data a.data := String.lt_iff_toList_lt
  have h2 : a ≤ b ↔ ¬b < a := Iff.rfl
  rw [h2, h1, ← charLtb_iff]
  simp [strLeb]

theorem orderedInsertStr_perm (x : String) :
    ∀ l : List String, (orderedInsertStr x l).Perm (x :: l)
  | [] => List.Perm.refl _
  | y :: ys => by
    simp only [orderedInsertStr]
    by_cases h : strLeb x y
    · rw [if_pos h]
    · rw [if_neg h]
      exact ((orderedInsertStr_perm x ys).cons y).trans (List.Perm.swap x y ys)

theorem sortStrings_perm : ∀ l : List String, (sortStrings l).Perm l
  | [] => List.Perm.refl _
  | x :: xs =>
    (orderedInsertStr_perm x (sortStrings xs)).trans ((sortStrings_perm xs).cons x)

theorem sorted_orderedInsertStr (x : String) (l : List String)
    (h : l.Sorted (fun a b => a ≤ b)) :
    (orderedInsertStr x l).Sorted (fun a b => a ≤ b) := by
  induction l with
  | nil => simp [orderedInsertStr]
  | cons y ys ih =>
    rcases List.sorted_cons.mp h with ⟨hy, hys⟩
    simp only [orderedInsertStr]
    by_cases hxy : strLeb x y
    · rw [if_pos hxy]
      refine List.sorted_cons.mpr ⟨?_, h⟩
      intro b hb
      rcases List.mem_cons.mp hb with rfl | hb
      · exact (strLeb_iff x b).mp hxy
      · exact le_trans ((strLeb_iff x y).mp hxy) (hy b hb)
    · rw [if_neg hxy]
      refine List.sorted_cons.mpr ⟨?_, ih hys⟩
      intro b hb
      rcases List.mem_cons.mp ((orderedInsertStr_perm x ys).mem_iff.mp hb) with rfl | hb
      · exact le_of_not_le (fun hle => hxy ((strLeb_iff _ _).mpr hle))
      · exact hy b hb

theorem sortStrings_sorted : ∀ l : List String, (sortStrings l).Sorted (fun a b => a ≤ b)
  | [] => List.sorted_nil
  | x :: xs => sorted_orderedInsertStr x (sortStrings xs) (sortStrings_sorted xs)

theorem mem_pdUniqueAux (a : String) :
    ∀ (l seen : List String), a ∈ pdUniqueAux seen l ↔ a ∈ l ∧ a ∉ seen := by
  intro l
  induction l with
  | nil => intro seen; simp [pdUniqueAux]
  | cons x xs ih =>
    intro seen
    simp only [pdUniqueAux]
    by_cases hx : x ∈ seen
    · rw [if_pos hx, ih]
      constructor
      · rintro ⟨h1, h2⟩
        exact ⟨List.mem_cons_of_mem x h1, h2⟩
      · rintro ⟨h1, h2⟩
        rcases List.mem_cons.mp h1 with rfl | h1
        · exact absurd hx h2
        · exact ⟨h1, h2⟩
    · rw [if_neg hx]
      simp only [List.mem_cons, ih, List.mem_cons, not_or]
      constructor
      · rintro (rfl | ⟨h1, h2, h3⟩)
        · exact ⟨Or.inl rfl, hx⟩
        · exact ⟨Or.inr h1, h3⟩
      · rintro ⟨rfl | h1, h2⟩
        · exact Or.inl rfl
        · by_cases hax : a = x
          · exact Or.inl hax
          · exact Or.inr ⟨h1, hax, h2⟩

theorem mem_pdUnique (a : String) (l : List String) :
    a ∈ pdUnique l ↔ a ∈ l := by
  simp [pdUnique, mem_pdUniqueAux]

theorem nodup_pdUniqueAux :
    ∀ (l seen : List String), (pdUniqueAux seen l).Nodup := by
  intro l
  induction l with
  | nil => intro seen; simp [pdUniqueAux]
  | cons x xs ih =>
    intro seen
    simp only [pdUniqueAux]
    by_cases hx : x ∈ seen
    · rw [if_pos hx]; exact ih seen
    · rw [if_neg hx]
      refine List.Nodup.cons ?_ (ih (x :: seen))
      intro hmem
      exact ((mem_pdUniqueAux x xs (x :: seen)).mp hmem).2 (List.mem_cons_self x seen)

theorem nodup_pdUnique (l : List String) : (pdUnique l).Nodup :=
  nodup_pdUniqueAux l []

theorem sortedCats_sorted (l : List String) :
    (sortedCats l).Sorted (fun a b => a ≤ b) :=
  sortStrings_sorted _

theorem sortedCats_perm_pdUnique (l : List String) :
    (sortedCats l).Perm (pdUnique l) :=
  sortStrings_perm _

theorem mem_sortedCats (a : String) (l : List String) :
    a ∈ sortedCats l ↔ a ∈ l := by
  rw [(sortedCats_perm_pdUnique l).mem_iff, mem_pdUnique]

theorem nodup_sortedCats (l : List String) : (sortedCats l).Nodup :=
  (sortedCats_perm_pdUnique l).nodup_iff.mpr (nodup_pdUnique l)

theorem sortedCats_eq_of_mem_iff {l l' : List String}
    (h : ∀ a, a ∈ l ↔ a ∈ l') : sortedCats l = sortedCats l' := by
  have hperm : (pdUnique l).Perm (pdUnique l') := by
    refine (List.perm_ext_iff_of_nodup (nodup_pdUnique l) (nodup_pdUnique l')).mpr ?_
    intro a
    rw [mem_pdUnique, mem_pdUnique]
    exact h a
  refine List.eq_of_perm_of_sorted ?_ (sortedCats_sorted l) (sortedCats_sorted l')
  exact (sortedCats_perm_pdUnique l).trans (hperm.trans (sortedCats_perm_pdUnique l').symm)

theorem sortedCats_nil : sortedCats [] = [] := rfl

/-- ChartSpec of the pie figure (line 28): one data point per record,
`names` = cluster labels, `values` = sector balances. -/
structure PieChart where
  names : List String
  values : List ℚ
  title : String
deriving DecidableEq

/-- ChartSpec of a scatter-line figure with rational y-values. -/
structure LineChart where
  xs : List String
  ys : List ℚ
  title : String
deriving DecidableEq

/-- ChartSpec of a scatter-line figure with natural-number y-values. -/
structure CountLineChart where
  xs : List String
  ys : List Nat
  title : String
deriving DecidableEq

/-- ChartSpec of a bar figure: one mark per (x, y) pair, plus the
explicit `category_orders` list and the title. -/
structure BarChart where
  xs : List String
  ys : List Nat
  categoryOrder : List String
  title : String
deriving DecidableEq

/-- `fig_pie` (line 28 of `app.py`). -/
def fig_pie (rs : List Record) : PieChart :=
  { names := rs.map Record.cluster
    values := rs.map Record.sectorBalance
    title := "Sector Balance Distribution" }

/-- `fig_line` (lines 31-35): Cluster Label vs Regional Exposure, one
point per record in row order. -/
def fig_line (rs : List Record) : LineChart :=
  { xs := rs.map Record.cluster
    ys := rs.map Record.regionalExposure
    title := "Cluster Label vs Regional Exposure" }

/-- `asset_class_counts = df['Asset_Class_Distribution'].apply(len)`
(line 38): the number of tokens of each record, in row order. -/
def asset_class_counts (rs : List Record) : List Nat :=
  rs.map (fun r => r.assetClasses.length)

/-- `fig_asset_class` (lines 39-43): Cluster Label vs number of elements
in the asset-class list, one point per record in row order. -/
def fig_asset_class (rs : List Record) : CountLineChart :=
  { xs := rs.map Record.cluster
    ys := asset_class_counts rs
    title := "Cluster Label vs Number of Elements in Asset Class Distribution" }

/-- `fig_bar` (lines 46-49): `px.bar(df_exploded, x='Asset_Class_Distribution')`
draws one unit mark per expanded row (marks at the same x stack, so the
rendered bar height is the row count), with `category_orders` the sorted
distinct tokens of the full expanded view. -/
def fig_bar (view : List ExpandedRecord) : BarChart :=
  { xs := view.map tokenStr
    ys := view.map (fun _ => 1)
    categoryOrder := sortedCats (view.map tokenStr)
    title := "Asset Class Distribution" }

/-- `total_asset_value = df['Sector_Balance'].sum()` (line 25), modelled
as an exact left fold over the balances in row order. -/
def total_asset_value (rs : List Record) : ℚ :=
  (rs.map Record.sectorBalance).foldl (fun a b => a + b) 0

/-- Insert a (value, count) pair in front of the first pair with a
strictly smaller count. -/
def insertByCount (p : String × Nat) : List (String × Nat) → List (String × Nat)
  | [] => [p]
  | q :: qs => if q.2 < p.2 then p :: q :: qs else q :: insertByCount p qs

/-- Stable sort by descending count (insertion sort). -/
def sortByCountDesc : List (String × Nat) → List (String × Nat)
  | [] => []
  | p :: ps => insertByCount p (sortByCountDesc ps)

/-- `pandas.Series.value_counts` (line 112): one (value, count) pair per
distinct value of the series, sorted by descending count. -/
def value_counts (l : List String) : List (String × Nat) :=
  sortByCountDesc ((pdUnique l).map (fun t => (t, l.count t)))

/-- The filter on line 109 of `app.py`:
`df_exploded[df_exploded['Cluster_Label'] == selected_cluster]`. -/
def filtered_data (ex : List ExpandedRecord) (selected_cluster : String) :
    List ExpandedRecord :=
  ex.filter (fun e => e.cluster == selected_cluster)

/-- `update_bar_chart` (lines 107-122): filter the expanded view to the
selected cluster, count token occurrences, and build a bar chart whose
category order is the sorted distinct tokens of the counted result. -/
def update_bar_chart (ex : List ExpandedRecord) (selected_cluster : String) :
    BarChart :=
  let counts := value_counts ((filtered_data ex selected_cluster).map tokenStr)
  { xs := counts.map Prod.fst
    ys := counts.map Prod.snd
    categoryOrder := sortedCats (counts.map Prod.fst)
    title := "Asset Class Distribution values for Cluster " ++ selected_cluster }

/-- Session state of the Dash app: the loaded rows (read-only after
load) and the figure currently held by the `bar-plot` graph component,
which is the only figure a callback ever replaces. -/
structure AppState where
  rows : List RawRow
  displayedBar : BarChart
deriving DecidableEq

/-- State at process start: the `bar-plot` component shows the default
`fig_bar` built from the full expanded view (line 79 of `app.py`). -/
def initState (rows : List RawRow) : AppState :=
  { rows := rows
    displayedBar := fig_bar (df_exploded (loadRecords rows)) }

/-- One dropdown selection event: Dash stores the figure returned by
`update_bar_chart` into the `bar-plot` component. The module-level
variables (`df`, `df_exploded`, `fig_pie`, ..., `fig_bar`) are not
assigned by the callback. -/
def selectCluster (st : AppState) (selected_cluster : String) : AppState :=
  { st with
    displayedBar :=
      update_bar_chart (df_exploded (loadRecords st.rows)) selected_cluster }

/-- Fold a whole interaction history of dropdown selections. -/
def applySelections (st : AppState) (sels : List String) : AppState :=
  sels.foldl selectCluster st

/-- Content of the generated report (lines 144-161): heading, summary
line value, note line, and the four rasterized figures in the 2x2 grid.
Rasterization is modelled as the ChartSpec itself (injected renderer). -/
structure PdfReport where
  heading : String
  summaryTotal : ℚ
  noteLine : String
  pieImage : PieChart
  lineImage : LineChart
  assetClassImage : CountLineChart
  barImage : BarChart
deriving DecidableEq

/-- `generate_pdf` (lines 130-162): on a truthy click count it rebuilds
the PDF from the module-level figures — which close over the dataframes
computed at load time — and returns it; with no click yet it returns
`None`. In particular the bar image comes from the module-level
`fig_bar`, not from the `bar-plot` component state. -/
def generate_pdf (rows : List RawRow) (n_clicks : Nat) : Option PdfReport :=
  if n_clicks ≠ 0 then
    let rs := loadRecords rows
    some { heading := "Data Visualization Report"
           summaryTotal := total_asset_value rs
           noteLine := "This is a sample report generated using ReportLab."
           pieImage := fig_pie rs
           lineImage := fig_line rs
           assetClassImage := fig_asset_class rs
           barImage := fig_bar (df_exploded rs) }
  else none

theorem insertByCount_perm (p : String × Nat) :
    ∀ l : List (String × Nat), (insertByCount p l).Perm (p :: l)
  | [] => List.Perm.refl _
  | q :: qs => by
    simp only [insertByCount]
    by_cases h : q.2 < p.2
    · rw [if_pos h]
    · rw [if_neg h]
      exact ((insertByCount_perm p qs).cons q).trans (List.Perm.swap p q qs)

theorem sortByCountDesc_perm :
    ∀ l : List (String × Nat), (sortByCountDesc l).Perm l
  | [] => List.Perm.refl _
  | p :: ps =>
    (insertByCount_perm p (sortByCountDesc ps)).trans ((sortByCountDesc_perm ps).cons p)

theorem value_counts_perm (l : List String) :
    (value_counts l).Perm ((pdUnique l).map (fun t => (t, l.count t))) :=
  sortByCountDesc_perm _

theorem mem_value_counts (l : List String) (t : String) (n : Nat) :
    (t, n) ∈ value_counts l ↔ t ∈ l ∧ n = l.count t := by
  rw [(value_counts_perm l).mem_iff, List.mem_map]
  constructor
  · rintro ⟨a, ha, heq⟩
    rw [Prod.mk.injEq] at heq
    rcases heq with ⟨rfl, rfl⟩
    exact ⟨(mem_pdUnique _ _).mp ha, rfl⟩
  · rintro ⟨ht, rfl⟩
    exact ⟨t, (mem_pdUnique _ _).mpr ht, rfl⟩

theorem mem_value_counts_fst (l : List String) (t : String) :
    t ∈ (value_counts l).map Prod.fst ↔ t ∈ l := by
  rw [List.mem_map]
  constructor
  · rintro ⟨⟨a, n⟩, hmem, rfl⟩
    exact ((mem_value_counts l a n).mp hmem).1
  · intro ht
    exact ⟨(t, l.count t), (mem_value_counts l t (l.count t)).mpr ⟨ht, rfl⟩, rfl⟩

theorem value_counts_nil : value_counts [] = [] := rfl

theorem zip_map_fst_snd_pairs (l : List (String × Nat)) :
    (l.map Prod.fst).zip (l.map Prod.snd) = l := by
  rw [List.zip_map']
  simp

theorem update_bar_chart_xs (ex : List ExpandedRecord) (L : String) :
    (update_bar_chart ex L).xs
      = (value_counts ((filtered_data ex L).map tokenStr)).map Prod.fst := rfl

theorem update_bar_chart_ys (ex : List ExpandedRecord) (L : String) :
    (update_bar_chart ex L).ys
      = (value_counts ((filtered_data ex L).map tokenStr)).map Prod.snd := rfl

theorem update_bar_chart_categoryOrder (ex : List ExpandedRecord) (L : String) :
    (update_bar_chart ex L).categoryOrder
      = sortedCats ((value_counts ((filtered_data ex L).map tokenStr)).map Prod.fst) := rfl

theorem mem_filtered_data (ex : List ExpandedRecord) (L : String)
    (e : ExpandedRecord) : e ∈ filtered_data ex L ↔ e ∈ ex ∧ e.cluster = L := by
  simp [filtered_data, List.mem_filter]

theorem filtered_data_eq_nil (ex : List ExpandedRecord) (L : String)
    (h : ∀ e ∈ ex, e.cluster ≠ L) : filtered_data ex L = [] := by
  simp only [filtered_data, List.filter_eq_nil_iff]
  intro e he
  simpa using h e he

/-- The example dataset from the spec (section 8): records
`[{A, 100, 1, "x,y"}, {B, 50, 2, ""}]`. -/
def rows0 : List RawRow :=
  [{ cluster := "A", sectorBalance := 100, regionalExposure := 1,
     assetClassField := some "x,y" },
   { cluster := "B", sectorBalance := 50, regionalExposure := 2,
     assetClassField := some "" }]

/-- Two rows whose asset-class cells are `"x, y"` and `"y"`, exercising
whitespace handling around the comma. -/
def rowsWS : List RawRow :=
  [{ cluster := "A", sectorBalance := 1, regionalExposure := 1,
     assetClassField := some "x, y" },
   { cluster := "A", sectorBalance := 1, regionalExposure := 1,
     assetClassField := some "y" }]

/-- C2 counterexample: a missing (or empty-string) asset-class cell is
loaded as the one-element token sequence `[""]`, whose length is 1, not
the empty sequence of length 0 stated by the claim. -/
theorem C2_counterexample :
    (loadRecord { cluster := "B", sectorBalance := 50, regionalExposure := 2,
                  assetClassField := none }).assetClasses = [""] ∧
    (loadRecord { cluster := "B", sectorBalance := 50, regionalExposure := 2,
                  assetClassField := some "" }).assetClasses = [""] ∧
    (loadRecord { cluster := "B", sectorBalance := 50, regionalExposure := 2,
                  assetClassField := none }).assetClasses.length ≠ 0 :=
  ⟨rfl, rfl, by decide⟩

/-- C2 (amended): for every input row whose asset-class value is missing
or the empty string, the loader produces a Record whose token sequence is
the singleton sequence containing the empty string (length 1, Python
`''.split(',') == ['']`); loading such a row is never an error (the
loader is a total function on rows). -/
theorem C2_amended (row : RawRow)
    (h : row.assetClassField = none ∨ row.assetClassField = some "") :
    (loadRecord row).assetClasses = [""] ∧
    (loadRecord row).assetClasses.length = 1 := by
  have hf := fillnaSplit_of_empty row.assetClassField h
  refine ⟨hf, ?_⟩
  show (fillnaSplit row.assetClassField).length = 1
  rw [hf]
  rfl

/-- C2 witness: the amended theorem applied to the concrete row
`{B, 50, 2, ""}`. -/
theorem C2_witness :
    (loadRecord { cluster := "B", sectorBalance := 50, regionalExposure := 2,
                  assetClassField := some "" }).assetClasses = [""] :=
  (C2_amended _ (Or.inr rfl)).1

/-- C3 counterexample: in the spec's example dataset, the record at
position 1 has an empty source asset-class field, yet its y-value in the
second line chart is 1, not 0 as the claim states. -/
theorem C3_counterexample :
    (rows0.map (fun row => row.assetClassField))[1]? = some (some "") ∧
    (fig_asset_class (loadRecords rows0)).ys[1]? = some 1 ∧
    (fig_asset_class (loadRecords rows0)).ys[1]? ≠ some 0 :=
  ⟨rfl, rfl, by decide⟩

/-- C3 (amended): the second line chart plots, at each record's position
in row order, x = the record's cluster label and y = the number of tokens
in that record's asset-class sequence; a record whose source asset-class
field was missing or empty contributes y = 1 (its token sequence is the
singleton `[""]`), not 0. -/
theorem C3_amended (rows : List RawRow) :
    (fig_asset_class (loadRecords rows)).xs
      = (loadRecords rows).map Record.cluster ∧
    (fig_asset_class (loadRecords rows)).ys
      = (loadRecords rows).map (fun r => r.assetClasses.length) ∧
    ∀ i, i < rows.length →
      ((rows[i]?).map (fun row => row.assetClassField) = some none ∨
       (rows[i]?).map (fun row => row.assetClassField) = some (some "")) →
      (fig_asset_class (loadRecords rows)).ys[i]? = some 1 := by
  refine ⟨rfl, rfl, ?_⟩
  intro i hi hfield
  have hrow : rows[i]? = some rows[i] := List.getElem?_eq_getElem hi
  rw [hrow] at hfield
  simp only [Option.map_some'] at hfield
  have hcase : rows[i].assetClassField = none ∨ rows[i].assetClassField = some "" := by
    rcases hfield with h | h
    · exact Or.inl (Option.some.inj h)
    · exact Or.inr (Option.some.inj h)
  have hy : (fig_asset_class (loadRecords rows)).ys
      = rows.map (fun row => (fillnaSplit row.assetClassField).length) := by
    show (rows.map loadRecord).map (fun r => r.assetClasses.length)
        = rows.map (fun row => (fillnaSplit row.assetClassField).length)
    rw [List.map_map]
    rfl
  rw [hy, List.getElem?_map, hrow, Option.map_some',
      fillnaSplit_of_empty rows[i].assetClassField hcase]
  rfl

/-- C3 witness: the amended theorem applied to the spec's example
dataset at position 1. -/
theorem C3_witness : (fig_asset_class (loadRecords rows0)).ys[1]? = some 1 :=
  (C3_amended rows0).2.2 1 (by decide) (Or.inr rfl)

/-- C5: the Row Expander (`explode`) turns a Record with N ≥ 1 tokens
into exactly N ExpandedRecords carrying those tokens in order, and a
Record with an empty token sequence into exactly one ExpandedRecord with
a null token; every produced row agrees with the source record on all
fields other than the token. -/
theorem C5_row_expander (r : Record) :
    (r.assetClasses ≠ [] →
      (explodeRecord r).length = r.assetClasses.length ∧
      (explodeRecord r).map ExpandedRecord.token = r.assetClasses.map some) ∧
    (r.assetClasses = [] →
      explodeRecord r
        = [{ cluster := r.cluster, sectorBalance := r.sectorBalance,
             regionalExposure := r.regionalExposure, token := none }]) ∧
    (∀ e ∈ explodeRecord r,
      e.cluster = r.cluster ∧ e.sectorBalance = r.sectorBalance ∧
      e.regionalExposure = r.regionalExposure) := by
  obtain ⟨c, sb, re, ts⟩ := r
  cases ts with
  | nil =>
    refine ⟨fun h => absurd rfl h, fun _ => rfl, ?_⟩
    intro e he
    simp only [explodeRecord, List.mem_singleton] at he
    subst he
    exact ⟨rfl, rfl, rfl⟩
  | cons t ts =>
    refine ⟨fun _ => ⟨?_, ?_⟩, fun h => absurd h (by simp), ?_⟩
    · simp [explodeRecord]
    · simp [explodeRecord]
    · intro e he
      simp only [explodeRecord, List.mem_map] at he
      obtain ⟨u, hu, rfl⟩ := he
      exact ⟨rfl, rfl, rfl⟩

/-- C5 witness: the expander at a record with no tokens (one null-token
row) and at a record with two tokens (two rows). -/
theorem C5_witness :
    explodeRecord { cluster := "B", sectorBalance := 50, regionalExposure := 2,
                    assetClasses := ([] : List String) }
      = [{ cluster := "B", sectorBalance := 50, regionalExposure := 2,
           token := none }] ∧
    (explodeRecord { cluster := "A", sectorBalance := 100, regionalExposure := 1,
                     assetClasses := ["x", "y"] }).length = 2 :=
  ⟨(C5_row_expander _).2.1 rfl,
   ((C5_row_expander _).1 (by decide)).1.trans rfl⟩

/-- C9: after loading, every Record's token sequence has length at least
1 (Python split always yields at least one chunk), so every Record
contributes at least one ExpandedRecord, and every y-value of the second
line chart is at least 1. -/
theorem C9_min_one_token (rows : List RawRow) :
    (∀ r ∈ loadRecords rows, 1 ≤ r.assetClasses.length) ∧
    (∀ r ∈ loadRecords rows, 1 ≤ (explodeRecord r).length) ∧
    (∀ y ∈ (fig_asset_class (loadRecords rows)).ys, 1 ≤ y) := by
  have hlen : ∀ r ∈ loadRecords rows, 1 ≤ r.assetClasses.length := by
    intro r hr
    simp only [loadRecords, List.mem_map] at hr
    obtain ⟨row, _, rfl⟩ := hr
    have hne := fillnaSplit_ne_nil row.assetClassField
    show 1 ≤ (fillnaSplit row.assetClassField).length
    cases hf : fillnaSplit row.assetClassField with
    | nil => exact absurd hf hne
    | cons a l => simp
  refine ⟨hlen, ?_, ?_⟩
  · intro r _
    obtain ⟨c, sb, re, ts⟩ := r
    cases ts <;> simp [explodeRecord]
  · intro y hy
    simp only [fig_asset_class, asset_class_counts, List.mem_map] at hy
    obtain ⟨r, hr, rfl⟩ := hy
    exact hlen r hr

/-- C9 witness: the invariant applied to a one-row dataset with an empty
asset-class cell. -/
theorem C9_witness :
    1 ≤ (loadRecord { cluster := "B", sectorBalance := 50, regionalExposure := 2,
                      assetClassField := some "" }).assetClasses.length :=
  (C9_min_one_token [{ cluster := "B", sectorBalance := 50, regionalExposure := 2,
                       assetClassField := some "" }]).1 _ (by simp [loadRecords])

/-- C10: the loader splits the asset-class cell on the comma character
only and preserves every other character, including surrounding
whitespace (joining the tokens back with commas recovers the cell, and no
token contains a comma); `"x, y"` splits into `"x"` and `" y"`, and
`" y"` is a bar-chart category distinct from `"y"`. -/
theorem C10_split_on_comma_only (s : String) :
    joinComma (splitComma s) = s ∧
    (∀ t ∈ splitComma s, ',' ∉ t.data) ∧
    splitComma "x, y" = ["x", " y"] ∧
    (" y" : String) ≠ "y" ∧
    (fig_bar (df_exploded (loadRecords rowsWS))).categoryOrder = [" y", "x", "y"] :=
  ⟨joinComma_splitComma s, comma_not_mem_splitComma s, rfl, by decide, by decide⟩

/-- C10 witness: the round trip at the concrete cell `"x, y"`. -/
theorem C10_witness : joinComma (splitComma "x, y") = "x, y" :=
  (C10_split_on_comma_only "x, y").1

/-- C4: for every selection L the Interactive Filter Handler's bar chart
pairs exactly the distinct tokens of the ExpandedRecords whose cluster
label equals L with their occurrence counts (the filtered view contains
exactly those ExpandedRecords); a selection matching no ExpandedRecord
yields a chart with no bars and no categories, not an error (the handler
is a total function). -/
theorem C4_filter_handler (ex : List ExpandedRecord) (L : String) :
    (∀ t n, (t, n) ∈ (update_bar_chart ex L).xs.zip (update_bar_chart ex L).ys ↔
        t ∈ (filtered_data ex L).map tokenStr ∧
        n = ((filtered_data ex L).map tokenStr).count t) ∧
    (∀ e ∈ filtered_data ex L, e ∈ ex ∧ e.cluster = L) ∧
    (∀ e ∈ ex, e.cluster = L → e ∈ filtered_data ex L) ∧
    ((∀ e ∈ ex, e.cluster ≠ L) →
      (update_bar_chart ex L).xs = [] ∧ (update_bar_chart ex L).ys = [] ∧
      (update_bar_chart ex L).categoryOrder = []) := by
  refine ⟨?_, ?_, ?_, ?_⟩
  · intro t n
    rw [update_bar_chart_xs, update_bar_chart_ys, zip_map_fst_snd_pairs]
    exact mem_value_counts _ t n
  · intro e he
    exact (mem_filtered_data ex L e).mp he
  · intro e he hc
    exact (mem_filtered_data ex L e).mpr ⟨he, hc⟩
  · intro h
    have hnil : filtered_data ex L = [] := filtered_data_eq_nil ex L h
    rw [update_bar_chart_xs, update_bar_chart_ys, update_bar_chart_categoryOrder, hnil]
    exact ⟨rfl, rfl, rfl⟩

/-- C4 witness: on the spec's example dataset, selecting the label "C",
which matches no record, yields a chart with no bars and no
categories. -/
theorem C4_witness :
    (update_bar_chart (df_exploded (loadRecords rows0)) "C").xs = [] ∧
    (update_bar_chart (df_exploded (loadRecords rows0)) "C").ys = [] ∧
    (update_bar_chart (df_exploded (loadRecords rows0)) "C").categoryOrder = [] :=
  (C4_filter_handler (df_exploded (loadRecords rows0)) "C").2.2.2 (by decide)

/-- C6: for the default bar chart and for every filtered bar chart, the
category ordering is sorted in ascending lexicographic order, has no
duplicates, and contains exactly the tokens present in the chart's input
view — i.e. it is the lexicographically sorted set of distinct tokens of
that view — and permuting the rows of the input view leaves the category
ordering unchanged. -/
theorem C6_category_order (view : List ExpandedRecord) (L : String) :
    ((fig_bar view).categoryOrder.Sorted (fun a b => a ≤ b) ∧
     (fig_bar view).categoryOrder.Nodup ∧
     (∀ t, t ∈ (fig_bar view).categoryOrder ↔ t ∈ view.map tokenStr)) ∧
    ((update_bar_chart view L).categoryOrder.Sorted (fun a b => a ≤ b) ∧
     (update_bar_chart view L).categoryOrder.Nodup ∧
     (∀ t, t ∈ (update_bar_chart view L).categoryOrder ↔
        t ∈ (filtered_data view L).map tokenStr)) ∧
    (∀ view' : List ExpandedRecord, view.Perm view' →
      (fig_bar view').categoryOrder = (fig_bar view).categoryOrder ∧
      (update_bar_chart view' L).categoryOrder
        = (update_bar_chart view L).categoryOrder) := by
  refine ⟨⟨sortedCats_sorted _, nodup_sortedCats _, fun t => mem_sortedCats t _⟩,
          ⟨?_, ?_, ?_⟩, ?_⟩
  · rw [update_bar_chart_categoryOrder]
    exact sortedCats_sorted _
  · rw [update_bar_chart_categoryOrder]
    exact nodup_sortedCats _
  · intro t
    rw [update_bar_chart_categoryOrder, mem_sortedCats, mem_value_counts_fst]
  · intro view' hperm
    constructor
    · show sortedCats (view'.map tokenStr) = sortedCats (view.map tokenStr)
      apply sortedCats_eq_of_mem_iff
      intro a
      exact ((hperm.map tokenStr).symm).mem_iff
    · rw [update_bar_chart_categoryOrder, update_bar_chart_categoryOrder]
      apply sortedCats_eq_of_mem_iff
      intro a
      rw [mem_value_counts_fst, mem_value_counts_fst]
      exact (((hperm.filter _).map tokenStr).symm).mem_iff

/-- C6 witness: category membership on the spec's example view, and
invariance of the category order under swapping two concrete rows. -/
theorem C6_witness :
    ("x" ∈ (fig_bar (df_exploded (loadRecords rows0))).categoryOrder ↔
      "x" ∈ (df_exploded (loadRecords rows0)).map tokenStr) ∧
    (fig_bar [{ cluster := "A", sectorBalance := 100, regionalExposure := 1,
                token := some "y" },
              { cluster := "A", sectorBalance := 100, regionalExposure := 1,
                token := some "x" }]).categoryOrder
      = (fig_bar [{ cluster := "A", sectorBalance := 100, regionalExposure := 1,
                    token := some "x" },
                  { cluster := "A", sectorBalance := 100, regionalExposure := 1,
                    token := some "y" }]).categoryOrder :=
  ⟨((C6_category_order (df_exploded (loadRecords rows0)) "A").1.2.2) "x",
   ((C6_category_order
      [{ cluster := "A", sectorBalance := 100, regionalExposure := 1,
         token := some "x" },
       { cluster := "A", sectorBalance := 100, regionalExposure := 1,
         token := some "y" }] "A").2.2
      [{ cluster := "A", sectorBalance := 100, regionalExposure := 1,
         token := some "y" },
       { cluster := "A", sectorBalance := 100, regionalExposure := 1,
         token := some "x" }]
      (List.Perm.swap _ _ _)).1⟩

/-- C1 counterexample: on the spec's example dataset, after the filter
handler has produced the bar chart for cluster "A", activating the
exporter embeds the module-level default bar chart, which differs (by
title and data) from the bar chart currently displayed. -/
theorem C1_counterexample :
    (generate_pdf rows0 1).map PdfReport.barImage
      = some (fig_bar (df_exploded (loadRecords rows0))) ∧
    (selectCluster (initState rows0) "A").displayedBar
      ≠ fig_bar (df_exploded (loadRecords rows0)) := by
  refine ⟨rfl, ?_⟩
  intro h
  exact absurd (congrArg BarChart.title h) (by decide)

/-- C1 (amended): every activation (truthy click count) regenerates the
report from the module-level figures computed at load time: heading, the
total-asset-value summary, the note line, the pie, line and asset-class
charts, and the initial default bar chart built from the full expanded
view. The embedded bar image therefore equals the bar chart displayed
before any interaction — not the one most recently produced by the
Interactive Filter Handler. -/
theorem C1_amended (rows : List RawRow) (n : Nat) (h : n ≠ 0) :
    generate_pdf rows n
      = some { heading := "Data Visualization Report"
               summaryTotal := total_asset_value (loadRecords rows)
               noteLine := "This is a sample report generated using ReportLab."
               pieImage := fig_pie (loadRecords rows)
               lineImage := fig_line (loadRecords rows)
               assetClassImage := fig_asset_class (loadRecords rows)
               barImage := fig_bar (df_exploded (loadRecords rows)) } ∧
    (generate_pdf rows n).map PdfReport.barImage
      = some (initState rows).displayedBar := by
  have hg : generate_pdf rows n
      = some { heading := "Data Visualization Report"
               summaryTotal := total_asset_value (loadRecords rows)
               noteLine := "This is a sample report generated using ReportLab."
               pieImage := fig_pie (loadRecords rows)
               lineImage := fig_line (loadRecords rows)
               assetClassImage := fig_asset_class (loadRecords rows)
               barImage := fig_bar (df_exploded (loadRecords rows)) } := by
    unfold generate_pdf
    rw [if_pos h]
  refine ⟨hg, ?_⟩
  rw [hg]
  rfl

/-- C1 witness: the amended theorem applied to the spec's example
dataset with one click. -/
theorem C1_witness :
    (generate_pdf rows0 1).map PdfReport.barImage
      = some (initState rows0).displayedBar :=
  (C1_amended rows0 1 (by decide)).2

end Dashboard
